import Mathlib

/-!
Verification development for the TrakMass offline-first sync core.

The definitions below are a shallow embedding of the TypeScript source:
  - `app/services/storage.ts` (local store: mass entries, sync queue,
    profile, settings; the web/in-memory backend is the embedded code path,
    whose state is the `WebState` record holding the four collections that
    the SQLite backend keeps in its four tables),
  - `app/services/sync.ts` (the sync engine `syncPendingEntries`),
  - the settings screen's `handleSaveReminder` guard.

Effects are made explicit: the wall clock (`new Date().toISOString()`) is a
`now : Nat` parameter (ISO-8601 strings compare like their epoch values, so
timestamps are embedded as naturals), the id generator `createId()` is a
`newId : String` parameter, and the network (`fetch`) is a `server` function
returning the per-request outcome (`Except.ok` for a 2xx response,
`Except.error msg` for a network error or non-2xx response, carrying the
message that the catch block in `syncPendingEntries` would extract).
-/

namespace Trakmass

/-- `MassUnit` from `types/mass.ts`: `'kg' | 'lb'`. -/
inductive MassUnit where
  | kg
  | lb
deriving DecidableEq, Repr

/-- `SyncStatus` from `types/mass.ts`: `'pending' | 'synced' | 'failed'`. -/
inductive SyncStatus where
  | pending
  | synced
  | failed
deriving DecidableEq, Repr

/-- `SyncOperation` from `types/mass.ts`: `'create' | 'update' | 'delete'`. -/
inductive SyncOperation where
  | create
  | update
  | delete
deriving DecidableEq, Repr

/-- `MassEntry` from `types/mass.ts`.  `mass` is a JS number, embedded as a
rational; `loggedAt`, `createdAt`, `updatedAt` are ISO timestamp strings,
embedded as epoch naturals (the ISO encoding is order-isomorphic). -/
structure MassEntry where
  id : String
  profileId : String
  mass : Rat
  unit : MassUnit
  note : Option String
  tags : List String
  loggedAt : Nat
  status : SyncStatus
  createdAt : Nat
  updatedAt : Nat
deriving DecidableEq, Repr

/-- `MassEntryInput` from `types/mass.ts` (optional fields are `Option`s). -/
structure MassEntryInput where
  profileId : String
  mass : Rat
  unit : MassUnit
  note : Option String := none
  tags : Option (List String) := none
  loggedAt : Option Nat := none
deriving DecidableEq, Repr

/-- `SyncMutation` from `types/mass.ts`.  `entityType` is the fixed tag
`'mass_entry'` and is omitted; `payload` is the snapshot passed to
`enqueueMutation` (a full serialized entry in every call site). -/
structure SyncMutation where
  id : String
  entityId : String
  operation : SyncOperation
  payload : MassEntry
  attempts : Nat
  lastError : Option String
  createdAt : Nat
  updatedAt : Nat
deriving DecidableEq, Repr

/-- `UserProfile` from `types/profile.ts`. -/
structure UserProfile where
  id : String
  fullName : String
  email : Option String
  bio : Option String
  unitPreference : MassUnit
  goalMass : Option Rat
  createdAt : Nat
  updatedAt : Nat
deriving DecidableEq, Repr

/-- `UserProfileInput` from `types/profile.ts`.  `goalMass` is `Option`:
`undefined` maps to `none` (the `Number.isNaN` guard of `saveUserProfile`
cannot fire on a rational, so the embedded branch is the non-NaN one). -/
structure UserProfileInput where
  fullName : String
  email : Option String := none
  bio : Option String := none
  unitPreference : Option MassUnit := none
  goalMass : Option Rat := none
deriving DecidableEq, Repr

/-- A JS `number` slot that may hold `NaN` (or another non-finite value):
`JsNum.num n` is a finite value, `JsNum.nan` is non-finite.  Used for the
`reminderHour` field, which `mergeSettings` guards with
`Number.isFinite(Number(raw.reminderHour))`. -/
inductive JsNum where
  | nan
  | num (n : Int)
deriving DecidableEq, Repr

/-- `AppSettings` from `storage.ts` (the normalized record that
`mergeSettings` produces: `reminderHour` is finite). -/
structure AppSettings where
  autoSync : Bool
  remindersEnabled : Bool
  reminderHour : Int
  lastSync : Option Nat
  reminderNotificationId : Option String
deriving DecidableEq, Repr

/-- `DEFAULT_SETTINGS` from `storage.ts`. -/
def DEFAULT_SETTINGS : AppSettings :=
  { autoSync := true
    remindersEnabled := true
    reminderHour := 7
    lastSync := none
    reminderNotificationId := none }

/-- A runtime `AppSettings` value as `saveAppSettings` receives it: the
TypeScript type promises a `number`, but at runtime `reminderHour` may be
non-finite, hence `JsNum`. -/
structure JsAppSettings where
  autoSync : Bool
  remindersEnabled : Bool
  reminderHour : JsNum
  lastSync : Option Nat
  reminderNotificationId : Option String
deriving DecidableEq, Repr

/-- `Partial<AppSettings>` as consumed by `mergeSettings`: every field may be
absent (`none`). -/
structure SettingsPatch where
  autoSync : Option Bool := none
  remindersEnabled : Option Bool := none
  reminderHour : Option JsNum := none
  lastSync : Option (Option Nat) := none
  reminderNotificationId : Option (Option String) := none
deriving DecidableEq, Repr

/-- `PROFILE_ID` from `storage.ts` (the fixed singleton row id). -/
def PROFILE_ID : String := "primary_profile"

/-- `WebState` from `storage.ts`: the whole persisted state of the
web/in-memory backend (the native backend keeps the same four collections
as SQLite tables). -/
structure WebState where
  massEntries : List MassEntry
  syncQueue : List SyncMutation
  profile : Option UserProfile
  settings : AppSettings
deriving DecidableEq, Repr

/-- `createMassEntry` from `storage.ts`.  `now` stands for
`new Date().toISOString()` and `newId` for `createId()` (whose freshness is
a platform property of `crypto.randomUUID`); the web branch prepends the
entry to `state.massEntries`. -/
def createMassEntry (input : MassEntryInput) (now : Nat) (newId : String)
    (s : WebState) : MassEntry × WebState :=
  let entry : MassEntry :=
    { id := newId
      profileId := input.profileId
      mass := input.mass
      unit := input.unit
      note := input.note
      tags := input.tags.getD []
      loggedAt := input.loggedAt.getD now
      status := .pending
      createdAt := now
      updatedAt := now }
  (entry, { s with massEntries := entry :: s.massEntries })

/-- `updateMassEntryStatus` from `storage.ts`: sets `status` and
`updatedAt = now` on every entry whose id matches; entries with other ids
are untouched (a no-op when the id is absent). -/
def updateMassEntryStatus (id : String) (status : SyncStatus) (now : Nat)
    (s : WebState) : WebState :=
  { s with
    massEntries :=
      s.massEntries.map fun entry =>
        if entry.id = id then { entry with status := status, updatedAt := now }
        else entry }

/-- `enqueueMutation` from `storage.ts`: appends a fresh intent with
`attempts = 0`, `lastError = null`, `createdAt = updatedAt = now`. -/
def enqueueMutation (entityId : String) (operation : SyncOperation)
    (payload : MassEntry) (now : Nat) (mutationId : String)
    (s : WebState) : String × WebState :=
  let mutation : SyncMutation :=
    { id := mutationId
      entityId := entityId
      operation := operation
      payload := payload
      attempts := 0
      lastError := none
      createdAt := now
      updatedAt := now }
  (mutationId, { s with syncQueue := s.syncQueue ++ [mutation] })

/-- `sortMutationsAsc` from `storage.ts`: sort by `createdAt` ascending
(`Array.prototype.sort` with a numeric comparator is a stable sort;
`insertionSort` is its stable embedding). -/
def sortMutationsAsc (mutations : List SyncMutation) : List SyncMutation :=
  mutations.insertionSort fun a b => a.createdAt ≤ b.createdAt

/-- `listPendingMutations` from `storage.ts` (default `limit = 25`):
mutations sorted by `createdAt` ascending, truncated to `limit`. -/
def listPendingMutations (s : WebState) (limit : Nat := 25) :
    List SyncMutation :=
  (sortMutationsAsc s.syncQueue).take limit

/-- `deleteMutation` from `storage.ts`: drop every queued intent whose id
matches. -/
def deleteMutation (id : String) (s : WebState) : WebState :=
  { s with syncQueue := s.syncQueue.filter fun mutation => mutation.id ≠ id }

/-- `recordMutationError` from `storage.ts`: on the matching intent,
increment `attempts`, set `lastError` and `updatedAt`. -/
def recordMutationError (id : String) (errorMessage : String) (now : Nat)
    (s : WebState) : WebState :=
  { s with
    syncQueue :=
      s.syncQueue.map fun mutation =>
        if mutation.id = id then
          { mutation with
            attempts := mutation.attempts + 1
            lastError := some errorMessage
            updatedAt := now }
        else mutation }

/-- `saveUserProfile` from `storage.ts` (web branch): build the candidate
row from the input (trimming text fields, defaulting the unit to `kg`),
then, if a row exists, keep its `createdAt` and write everything else. -/
def saveUserProfile (input : UserProfileInput) (now : Nat) (s : WebState) :
    UserProfile × WebState :=
  let profile : UserProfile :=
    { id := PROFILE_ID
      fullName := input.fullName.trim
      email := input.email.map String.trim
      bio := input.bio.map String.trim
      unitPreference := input.unitPreference.getD .kg
      goalMass := input.goalMass
      createdAt := now
      updatedAt := now }
  match s.profile with
  | some existing =>
      let merged := { profile with createdAt := existing.createdAt, updatedAt := now }
      (merged, { s with profile := some merged })
  | none => (profile, { s with profile := some profile })

/-- `mergeSettings` from `storage.ts`: spread the defaults under the patch,
then keep `reminderHour` only when it is a finite number, else fall back to
the default hour. -/
def mergeSettings (value : Option SettingsPatch) : AppSettings :=
  let v := value.getD {}
  let rawHour : JsNum := v.reminderHour.getD (.num DEFAULT_SETTINGS.reminderHour)
  { autoSync := v.autoSync.getD DEFAULT_SETTINGS.autoSync
    remindersEnabled := v.remindersEnabled.getD DEFAULT_SETTINGS.remindersEnabled
    reminderHour :=
      match rawHour with
      | .num n => n
      | .nan => DEFAULT_SETTINGS.reminderHour
    lastSync := v.lastSync.getD DEFAULT_SETTINGS.lastSync
    reminderNotificationId :=
      v.reminderNotificationId.getD DEFAULT_SETTINGS.reminderNotificationId }

/-- View a runtime settings value as the `Partial<AppSettings>` that the
spread `{ ...DEFAULT_SETTINGS, ...value }` consumes (every field present). -/
def settingsToPatch (x : JsAppSettings) : SettingsPatch :=
  { autoSync := some x.autoSync
    remindersEnabled := some x.remindersEnabled
    reminderHour := some x.reminderHour
    lastSync := some x.lastSync
    reminderNotificationId := some x.reminderNotificationId }

/-- View a normalized `AppSettings` back as a runtime value (its
`reminderHour` is finite by construction). -/
def settingsAsJs (a : AppSettings) : JsAppSettings :=
  { autoSync := a.autoSync
    remindersEnabled := a.remindersEnabled
    reminderHour := .num a.reminderHour
    lastSync := a.lastSync
    reminderNotificationId := a.reminderNotificationId }

/-- `getAppSettings` from `storage.ts` (web branch): the stored singleton. -/
def getAppSettings (s : WebState) : AppSettings :=
  s.settings

/-- `saveAppSettings` from `storage.ts` (web branch): normalize via
`mergeSettings`, persist through `applyWebSettings` (which re-merges), and
return the normalized record. -/
def saveAppSettings (settings : JsAppSettings) (s : WebState) :
    AppSettings × WebState :=
  let normalized := mergeSettings (some (settingsToPatch settings))
  let persisted := mergeSettings (some (settingsToPatch (settingsAsJs normalized)))
  (normalized, { s with settings := persisted })

/-- `SyncStats` from `sync.ts`: the aggregate result of one run. -/
structure SyncStats where
  attempted : Nat
  synced : Nat
  skipped : Bool
  reason : Option String
  errors : List String
deriving DecidableEq, Repr

/-- The per-request outcome of `sendMutation`'s `fetch`: `.ok` for a 2xx
response, `.error msg` for a network error or a non-2xx response, where
`msg` is the message the catch block in `syncPendingEntries` extracts
(response text, `Failed with status N`, or `Unknown sync error`). -/
def SyncServer : Type := SyncMutation → Except String Unit

/-- The body of the `for (const mutation of mutations)` loop in
`syncPendingEntries`: on success increment `synced`, delete the intent and
mark its entry `synced`; on failure append the message to `errors` and call
`recordMutationError`.  The last component is a ghost trace recording, in
order, each mutation as it is sent. -/
def syncStep (server : SyncServer) (now : Nat)
    (acc : Nat × List String × WebState × List SyncMutation)
    (mutation : SyncMutation) : Nat × List String × WebState × List SyncMutation :=
  match acc with
  | (synced, errors, s, trace) =>
    match server mutation with
    | .ok _ =>
        (synced + 1, errors,
          updateMassEntryStatus mutation.entityId .synced now
            (deleteMutation mutation.id s),
          trace ++ [mutation])
    | .error message =>
        (synced, errors ++ [message],
          recordMutationError mutation.id message now s,
          trace ++ [mutation])

/-- The loop of `syncPendingEntries` over the loaded page of mutations. -/
def syncRun (server : SyncServer) (now : Nat) (mutations : List SyncMutation)
    (s : WebState) : Nat × List String × WebState × List SyncMutation :=
  mutations.foldl (syncStep server now) (0, [], s, [])

/-- `syncPendingEntries` from `sync.ts`.  `endpoint` is the computed
`SYNC_ENDPOINT` (`none` when `EXPO_PUBLIC_SYNC_ENDPOINT` is unset): when
absent, return the skip result untouched; otherwise load the default page
(limit 25) of pending mutations, return the empty result if there are none,
else run the loop and report the totals. -/
def syncPendingEntries (endpoint : Option String) (server : SyncServer)
    (now : Nat) (s : WebState) : SyncStats × WebState :=
  match endpoint with
  | none =>
      ({ attempted := 0, synced := 0, skipped := true
         reason := some "SYNC_ENDPOINT not configured", errors := [] }, s)
  | some _ =>
      let mutations := listPendingMutations s
      match mutations with
      | [] =>
          ({ attempted := 0, synced := 0, skipped := false
             reason := none, errors := [] }, s)
      | _ =>
          let result := syncRun server now mutations s
          ({ attempted := mutations.length, synced := result.1, skipped := false
             reason := none, errors := result.2.1 }, result.2.2.1)

/-- The order in which one run of `syncPendingEntries` sends the intents
(the ghost trace of the loop; empty when the run is skipped). -/
def syncAttemptTrace (endpoint : Option String) (server : SyncServer)
    (now : Nat) (s : WebState) : List SyncMutation :=
  match endpoint with
  | none => []
  | some _ => (syncRun server now (listPendingMutations s) s).2.2.2

/-- The state effect of one loop iteration of `syncPendingEntries`
(projection of `syncStep` onto the store). -/
def syncStepState (server : SyncServer) (now : Nat) (s : WebState)
    (mutation : SyncMutation) : WebState :=
  match server mutation with
  | .ok _ =>
      updateMassEntryStatus mutation.entityId .synced now
        (deleteMutation mutation.id s)
  | .error message => recordMutationError mutation.id message now s

/-- The error message a send of `mutation` contributes to the run's error
list (`none` when the send succeeds). -/
def serverErr (server : SyncServer) (mutation : SyncMutation) : Option String :=
  match server mutation with
  | .ok _ => none
  | .error message => some message

/-- How one run may change a stored entry: it is either left unchanged or
stamped `synced` (with `updatedAt` refreshed).  In particular the run never
writes the status `failed`. -/
def entryRel (now : Nat) (e e' : MassEntry) : Prop :=
  e' = e ∨ e' = { e with status := SyncStatus.synced, updatedAt := now }

/-- A server that accepts every request with a 2xx response. -/
def okServer : SyncServer := fun _ => .ok ()

/-- A server that rejects every request. -/
def failServer : SyncServer := fun _ => .error "boom"

/-- `fun a b => a.createdAt ≤ b.createdAt` is total (needed for the
insertion-sort correctness lemmas). -/
instance : IsTotal SyncMutation fun a b => a.createdAt ≤ b.createdAt :=
  ⟨fun a b => Nat.le_total a.createdAt b.createdAt⟩

/-- `fun a b => a.createdAt ≤ b.createdAt` is transitive. -/
instance : IsTrans SyncMutation fun a b => a.createdAt ≤ b.createdAt :=
  ⟨fun _ _ _ hab hbc => Nat.le_trans hab hbc⟩

/-- `handleSaveReminder` from the settings screen: parse the typed hour
(`none` embeds a `NaN` parse), reject it outside `0..23`, otherwise save
the current settings with the new hour (`update({ reminderHour: hour })`
merges the patch over the current settings before saving). -/
def handleSaveReminder (reminderInput : Option Int) (current : JsAppSettings)
    (s : WebState) : Option (AppSettings × WebState) :=
  match reminderInput with
  | none => none
  | some hour =>
      if hour < 0 ∨ 23 < hour then none
      else some (saveAppSettings { current with reminderHour := .num hour } s)

/-- JSON values as produced by `JSON.parse`.  Numbers keep their raw
numeral text: the tag-decoding path never inspects numeric values, only
whether the parsed value is an array.  Text is carried as `List Char`. -/
inductive Json where
  | null
  | bool (b : Bool)
  | num (raw : List Char)
  | str (s : List Char)
  | arr (elements : List Json)
  | obj (members : List (List Char × Json))

/-- Cons a decoded character onto a string-parse result. -/
def consChar (c : Char) : Option (List Char × List Char) → Option (List Char × List Char)
  | none => none
  | some (s, rest) => some (c :: s, rest)

/-- The numeric value of one hex digit, if any (`JSON.parse` accepts both
cases). -/
def hexDigitVal (c : Char) : Option Nat :=
  if '0' ≤ c ∧ c ≤ '9' then some (c.toNat - 48)
  else if 'a' ≤ c ∧ c ≤ 'f' then some (c.toNat - 87)
  else if 'A' ≤ c ∧ c ≤ 'F' then some (c.toNat - 55)
  else none

/-- The lowercase hex digit for a value below 16 (as `JSON.stringify`
emits in `\u00XX` escapes). -/
def hexDigit (n : Nat) : Char :=
  if n < 10 then Char.ofNat (48 + n) else Char.ofNat (87 + n)

/-- The code point of a `\uXXXX` escape's four hex digits. -/
def decodeHex4 (h1 h2 h3 h4 : Char) : Option Nat :=
  match hexDigitVal h1, hexDigitVal h2, hexDigitVal h3, hexDigitVal h4 with
  | some a, some b, some c, some d => some (((a * 16 + b) * 16 + c) * 16 + d)
  | _, _, _, _ => none

/-- Decode a `\uXXXX` escape and continue with `k`.  Code points in the
UTF-16 surrogate range (which `Char` cannot represent, and which the
stringifier never emits) are rejected. -/
def parseUEscape (h1 h2 h3 h4 : Char)
    (k : Option (List Char × List Char)) : Option (List Char × List Char) :=
  match decodeHex4 h1 h2 h3 h4 with
  | some n => if n < 55296 then consChar (Char.ofNat n) k else none
  | none => none

/-- Parse the body of a JSON string after its opening quote, returning the
decoded characters and the text after the closing quote.  Mirrors
`JSON.parse`: the listed backslash escapes are decoded, a raw control
character or a bad escape is an error. -/
def parseStringBody : List Char → Option (List Char × List Char)
  | [] => none
  | c :: rest =>
      if c = '"' then some ([], rest)
      else if c = '\\' then
        match rest with
        | '"' :: r => consChar '"' (parseStringBody r)
        | '\\' :: r => consChar '\\' (parseStringBody r)
        | '/' :: r => consChar '/' (parseStringBody r)
        | 'b' :: r => consChar '\x08' (parseStringBody r)
        | 'f' :: r => consChar '\x0C' (parseStringBody r)
        | 'n' :: r => consChar '\n' (parseStringBody r)
        | 'r' :: r => consChar '\r' (parseStringBody r)
        | 't' :: r => consChar '\t' (parseStringBody r)
        | 'u' :: h1 :: h2 :: h3 :: h4 :: r => parseUEscape h1 h2 h3 h4 (parseStringBody r)
        | _ => none
      else if c.toNat < 32 then none
      else consChar c (parseStringBody rest)

/-- JSON insignificant whitespace. -/
def isJsonWs (c : Char) : Bool :=
  c == ' ' || c == '\t' || c == '\n' || c == '\r'

/-- Drop leading JSON whitespace. -/
def skipWs : List Char → List Char
  | [] => []
  | c :: rest => if isJsonWs c then skipWs rest else c :: rest

/-- Parse the optional fraction and exponent of a JSON numeral, keeping the
raw text. -/
def parseExpPart (acc : List Char) (cs : List Char) : Option (List Char × List Char) :=
  match cs with
  | e :: rest =>
      if e = 'e' ∨ e = 'E' then
        let (sgn, rest1) :=
          match rest with
          | '+' :: r => (['+'], r)
          | '-' :: r => (['-'], r)
          | _ => (([] : List Char), rest)
        let ds := rest1.takeWhile Char.isDigit
        if ds = [] then none
        else some (acc ++ e :: sgn ++ ds, rest1.dropWhile Char.isDigit)
      else some (acc, cs)
  | [] => some (acc, [])

/-- Parse the optional fraction of a JSON numeral, then the exponent. -/
def parseFracPart (acc : List Char) (cs : List Char) : Option (List Char × List Char) :=
  match cs with
  | '.' :: rest =>
      let ds := rest.takeWhile Char.isDigit
      if ds = [] then none
      else parseExpPart (acc ++ '.' :: ds) (rest.dropWhile Char.isDigit)
  | _ => parseExpPart acc cs

/-- Parse the integer part of a JSON numeral after the optional sign (a
leading zero must stand alone, as in the JSON grammar). -/
def parseNumberBody (sign : List Char) (cs : List Char) : Option (List Char × List Char) :=
  match cs with
  | '0' :: rest =>
      match rest with
      | c :: _ => if c.isDigit then none else parseFracPart (sign ++ ['0']) rest
      | [] => parseFracPart (sign ++ ['0']) rest
  | c :: rest =>
      if c.isDigit then
        parseFracPart (sign ++ c :: rest.takeWhile Char.isDigit)
          (rest.dropWhile Char.isDigit)
      else none
  | [] => none

/-- Parse a JSON numeral token (raw text plus remainder). -/
def parseNumber (cs : List Char) : Option (List Char × List Char) :=
  match cs with
  | '-' :: rest => parseNumberBody ['-'] rest
  | _ => parseNumberBody [] cs

/-- What the recursive JSON parser is currently reading: one value, the
elements of an array after `[`, or the members of an object after `{`. -/
inductive ParseMode where
  | value (cs : List Char)
  | elements (cs : List Char) (acc : List Json)
  | members (cs : List Char) (acc : List (List Char × Json))

/-- Wrap a string-parse result as a JSON value result. -/
def strResult (o : Option (List Char × List Char)) : Option (Json × List Char) :=
  match o with
  | some (s, rest) => some (.str s, rest)
  | none => none

/-- Wrap a numeral-parse result as a JSON value result. -/
def numResult (o : Option (List Char × List Char)) : Option (Json × List Char) :=
  match o with
  | some (raw, rest) => some (.num raw, rest)
  | none => none

/-- The recursive core of `JSON.parse`, structurally recursive on a fuel
bound (one unit per grammar step; callers supply input length plus one,
which dominates the number of steps). -/
def parseCore : Nat → ParseMode → Option (Json × List Char)
  | 0, _ => none
  | fuel + 1, .value cs =>
    match skipWs cs with
    | '"' :: rest => strResult (parseStringBody rest)
    | '[' :: rest =>
        match skipWs rest with
        | ']' :: r => some (.arr [], r)
        | rest' => parseCore fuel (.elements rest' [])
    | '{' :: rest =>
        match skipWs rest with
        | '}' :: r => some (.obj [], r)
        | rest' => parseCore fuel (.members rest' [])
    | 't' :: 'r' :: 'u' :: 'e' :: rest => some (.bool true, rest)
    | 'f' :: 'a' :: 'l' :: 's' :: 'e' :: rest => some (.bool false, rest)
    | 'n' :: 'u' :: 'l' :: 'l' :: rest => some (.null, rest)
    | cs' => numResult (parseNumber cs')
  | fuel + 1, .elements cs acc =>
    match parseCore fuel (.value cs) with
    | some (j, rest) =>
        match skipWs rest with
        | ',' :: r => parseCore fuel (.elements r (acc ++ [j]))
        | ']' :: r => some (.arr (acc ++ [j]), r)
        | _ => none
    | none => none
  | fuel + 1, .members cs acc =>
    match skipWs cs with
    | '"' :: rest =>
        match parseStringBody rest with
        | some (k, rest1) =>
            match skipWs rest1 with
            | ':' :: rest2 =>
                match parseCore fuel (.value rest2) with
                | some (v, rest3) =>
                    match skipWs rest3 with
                    | ',' :: r => parseCore fuel (.members r (acc ++ [(k, v)]))
                    | '}' :: r => some (.obj (acc ++ [(k, v)]), r)
                    | _ => none
                | none => none
            | _ => none
        | none => none
    | _ => none

/-- `JSON.parse` (modelled): parse one value and require the remainder to
be whitespace; anything else throws, which the model reports as `none`. -/
def parseJson (cs : List Char) : Option Json :=
  match parseCore (cs.length + 1) (.value cs) with
  | some (j, rest) => if skipWs rest = [] then some j else none
  | none => none

/-- How `JSON.stringify` renders one character inside a string literal:
quote and backslash are escaped, the five named control escapes are used,
other control characters become `\u00XX`, everything else is emitted
verbatim. -/
def escapeChar (c : Char) : List Char :=
  if c = '"' then ['\\', '"']
  else if c = '\\' then ['\\', '\\']
  else if c = '\x08' then ['\\', 'b']
  else if c = '\x0C' then ['\\', 'f']
  else if c = '\n' then ['\\', 'n']
  else if c = '\r' then ['\\', 'r']
  else if c = '\t' then ['\\', 't']
  else if c.toNat < 32 then
    ['\\', 'u', '0', '0', hexDigit (c.toNat / 16), hexDigit (c.toNat % 16)]
  else [c]

/-- Escape every character of a string body. -/
def escapeList : List Char → List Char
  | [] => []
  | c :: rest => escapeChar c ++ escapeList rest

/-- A JSON string literal for `s`. -/
def quoteStr (s : List Char) : List Char :=
  '"' :: escapeList s ++ ['"']

/-- Comma-join rendered pieces. -/
def joinComma : List (List Char) → List Char
  | [] => []
  | [x] => x
  | x :: y :: rest => x ++ ',' :: joinComma (y :: rest)

/-- `JSON.stringify` of an array of strings (the only shape `serializeTags`
ever stringifies). -/
def stringifyTags (tags : List (List Char)) : List Char :=
  '[' :: joinComma (tags.map quoteStr) ++ [']']

/-- `serializeTags` from `storage.ts`: `JSON.stringify(tags)` for a present
non-empty list, else `null`. -/
def serializeTags (tags : Option (List (List Char))) : Option (List Char) :=
  match tags with
  | some ts => if ts.length > 0 then some (stringifyTags ts) else none
  | none => none

/-- `deserializeTags` from `storage.ts`: a falsy raw value (null/undefined
or the empty string) yields `[]`; text `JSON.parse` throws on yields `[]`;
a parsed non-array yields `[]`; a parsed array is returned verbatim (the
TypeScript cast to `string[]` is unchecked, so the elements are arbitrary
JSON values).  Total by construction: no error escapes. -/
def deserializeTags (raw : Option (List Char)) : List Json :=
  match raw with
  | none => []
  | some cs =>
    if cs = [] then []
    else
      match parseJson cs with
      | some (.arr elements) => elements
      | some _ => []
      | none => []

/-- A concrete entry used to build witness states. -/
def sampleEntry : MassEntry :=
  { id := "entry-1"
    profileId := "primary_profile"
    mass := 70
    unit := .kg
    note := none
    tags := []
    loggedAt := 100
    status := .pending
    createdAt := 100
    updatedAt := 100 }

/-- A concrete queued intent used to build witness states. -/
def sampleMutation : SyncMutation :=
  { id := "mut-1"
    entityId := "entry-1"
    operation := .create
    payload := sampleEntry
    attempts := 0
    lastError := none
    createdAt := 100
    updatedAt := 100 }

/-- A concrete store state with one pending entry and one queued intent. -/
def sampleState : WebState :=
  { massEntries := [sampleEntry]
    syncQueue := [sampleMutation]
    profile := none
    settings := DEFAULT_SETTINGS }

/-- A concrete existing profile row used to build witness states. -/
def sampleProfile : UserProfile :=
  { id := PROFILE_ID
    fullName := "Alice"
    email := none
    bio := none
    unitPreference := .kg
    goalMass := none
    createdAt := 50
    updatedAt := 50 }

/-- A concrete profile input used in witnesses. -/
def sampleProfileInput : UserProfileInput :=
  { fullName := " Alice B "
    email := some "a@b.c"
    bio := none
    unitPreference := some .lb
    goalMass := some 65 }

/-- A concrete store state holding an existing profile row. -/
def sampleProfileState : WebState :=
  { massEntries := []
    syncQueue := []
    profile := some sampleProfile
    settings := DEFAULT_SETTINGS }

/-- A concrete runtime settings value whose `reminderHour` (99) lies outside
`0..23`. -/
def overRangeSettings : JsAppSettings :=
  { autoSync := true
    remindersEnabled := true
    reminderHour := .num 99
    lastSync := none
    reminderNotificationId := none }

/-- A second queued intent with a later `createdAt` (for ordering
witnesses). -/
def sampleMutation2 : SyncMutation :=
  { id := "mut-2"
    entityId := "entry-2"
    operation := .create
    payload := sampleEntry
    attempts := 0
    lastError := none
    createdAt := 200
    updatedAt := 200 }

/-- A store whose queue holds two intents inserted in reverse time order
(the later one first). -/
def twoMutState : WebState :=
  { massEntries := [sampleEntry]
    syncQueue := [sampleMutation2, sampleMutation]
    profile := none
    settings := DEFAULT_SETTINGS }

/-- A store whose queue holds 26 pending intents — one more than the
sync engine's page limit. -/
def bigQueueState : WebState :=
  { massEntries := [sampleEntry]
    syncQueue := List.replicate 26 sampleMutation
    profile := none
    settings := DEFAULT_SETTINGS }

/-- C4: `createEntry` returns a full record whose id is the freshly
generated one, whose status is `pending`, whose `createdAt` and `updatedAt`
both equal the creation time, and whose `loggedAt` is `input.loggedAt` when
supplied and the creation time otherwise (`Option.getD`); the returned
record is exactly the one persisted (prepended to the store), and nothing
else in the store changes. -/
theorem createMassEntry_spec (input : MassEntryInput) (now : Nat)
    (newId : String) (s : WebState) :
    (createMassEntry input now newId s).1.id = newId ∧
    (createMassEntry input now newId s).1.status = .pending ∧
    (createMassEntry input now newId s).1.createdAt = now ∧
    (createMassEntry input now newId s).1.updatedAt = now ∧
    (createMassEntry input now newId s).1.loggedAt = input.loggedAt.getD now ∧
    (createMassEntry input now newId s).1.profileId = input.profileId ∧
    (createMassEntry input now newId s).1.mass = input.mass ∧
    (createMassEntry input now newId s).1.unit = input.unit ∧
    (createMassEntry input now newId s).2.massEntries =
      (createMassEntry input now newId s).1 :: s.massEntries ∧
    (createMassEntry input now newId s).2.syncQueue = s.syncQueue ∧
    (createMassEntry input now newId s).2.profile = s.profile ∧
    (createMassEntry input now newId s).2.settings = s.settings := by
  refine ⟨rfl, rfl, rfl, rfl, rfl, rfl, rfl, rfl, rfl, rfl, rfl, rfl⟩

/-- C5: with no remote endpoint configured, `syncPendingEntries` returns
`attempted = 0`, `synced = 0`, `skipped = true`, a non-empty reason, and no
errors, and leaves the stored state untouched (for every state, so the
queue is neither read nor written). -/
theorem syncPendingEntries_skip (server : SyncServer) (now : Nat)
    (s : WebState) :
    syncPendingEntries none server now s =
      ({ attempted := 0, synced := 0, skipped := true
         reason := some "SYNC_ENDPOINT not configured", errors := [] }, s) ∧
    "SYNC_ENDPOINT not configured" ≠ "" := by
  exact ⟨rfl, by decide⟩

/-- C7: `deleteMutation` is idempotent — a second call on the same id is a
no-op, and a call whose id is absent from the queue leaves the state
exactly as it was. -/
theorem deleteMutation_idempotent (id : String) (s : WebState) :
    deleteMutation id (deleteMutation id s) = deleteMutation id s ∧
    ((∀ m ∈ s.syncQueue, m.id ≠ id) → deleteMutation id s = s) := by
  obtain ⟨me, sq, pr, st⟩ := s
  constructor
  · simp only [deleteMutation]
    congr 1
    exact List.filter_eq_self.mpr fun a ha => (List.mem_filter.mp ha).2
  · intro h
    simp only [deleteMutation]
    congr 1
    exact List.filter_eq_self.mpr fun a ha => decide_eq_true (h a ha)

/-- Witness for C7 at a concrete state: `"absent"` does not occur in
`sampleState`'s queue, and deleting it twice (or once) changes nothing. -/
theorem deleteMutation_idempotent_witness :
    deleteMutation "absent" (deleteMutation "absent" sampleState) =
      deleteMutation "absent" sampleState ∧
    deleteMutation "absent" sampleState = sampleState :=
  ⟨(deleteMutation_idempotent "absent" sampleState).1,
    (deleteMutation_idempotent "absent" sampleState).2 (by decide)⟩

/-- C8: when a profile row already exists, `saveProfile` preserves that
row's `createdAt` and writes only the mutable fields (`fullName`, `email`,
`bio`, `unitPreference`, `goalMass`) plus `updatedAt = now`; the row id
stays the fixed singleton id; the returned record is the persisted one, and
nothing else in the store changes. -/
theorem saveUserProfile_preserves_createdAt (input : UserProfileInput)
    (now : Nat) (s : WebState) (existing : UserProfile)
    (h : s.profile = some existing) :
    (saveUserProfile input now s).1.createdAt = existing.createdAt ∧
    (saveUserProfile input now s).1.updatedAt = now ∧
    (saveUserProfile input now s).1.fullName = input.fullName.trim ∧
    (saveUserProfile input now s).1.email = input.email.map String.trim ∧
    (saveUserProfile input now s).1.bio = input.bio.map String.trim ∧
    (saveUserProfile input now s).1.unitPreference =
      input.unitPreference.getD .kg ∧
    (saveUserProfile input now s).1.goalMass = input.goalMass ∧
    (existing.id = PROFILE_ID → (saveUserProfile input now s).1.id = existing.id) ∧
    (saveUserProfile input now s).2.profile = some (saveUserProfile input now s).1 ∧
    (saveUserProfile input now s).2.massEntries = s.massEntries ∧
    (saveUserProfile input now s).2.syncQueue = s.syncQueue ∧
    (saveUserProfile input now s).2.settings = s.settings := by
  obtain ⟨me, sq, pr, st⟩ := s
  replace h : pr = some existing := h
  subst h
  exact ⟨rfl, rfl, rfl, rfl, rfl, rfl, rfl, fun he => he.symm, rfl, rfl, rfl, rfl⟩

/-- Witness for C8: saving over the concrete existing row keeps its
`createdAt` (50), stamps `updatedAt` with the new clock (60), and persists
the returned record. -/
theorem saveUserProfile_preserves_createdAt_witness :
    (saveUserProfile sampleProfileInput 60 sampleProfileState).1.createdAt = 50 ∧
    (saveUserProfile sampleProfileInput 60 sampleProfileState).1.updatedAt = 60 ∧
    (saveUserProfile sampleProfileInput 60 sampleProfileState).1.id = PROFILE_ID ∧
    (saveUserProfile sampleProfileInput 60 sampleProfileState).2.profile =
      some (saveUserProfile sampleProfileInput 60 sampleProfileState).1 := by
  have h := saveUserProfile_preserves_createdAt sampleProfileInput 60
    sampleProfileState sampleProfile rfl
  exact ⟨h.1, h.2.1, h.2.2.2.2.2.2.2.1 rfl, h.2.2.2.2.2.2.2.2.1⟩

/-- C9 counterexample: `saveAppSettings` does not clamp `reminderHour`; the
input hour 99 is returned and persisted as 99, which is not ≤ 23 — so not
every persisted/returned settings record has `reminderHour` in `0..23`. -/
theorem saveAppSettings_range_counterexample :
    (saveAppSettings overRangeSettings sampleState).1.reminderHour = 99 ∧
    (getAppSettings (saveAppSettings overRangeSettings sampleState).2).reminderHour = 99 ∧
    ¬((99 : Int) ≤ 23) :=
  ⟨rfl, rfl, by decide⟩

/-- C9 amended: `mergeSettings` only defaults a non-finite `reminderHour`
to 7 and passes finite values through unclamped; hence every settings
record persisted by `saveAppSettings` (and read back by `getAppSettings`)
has `reminderHour` in `0..23` provided the input hour lies in `0..23` — and
the settings screen's `handleSaveReminder` enforces exactly that bound
before saving, so every record saved through the UI path is in range. -/
theorem saveAppSettings_range_amended :
    (∀ (inp : JsAppSettings) (st : WebState) (n : Int),
        inp.reminderHour = JsNum.num n → 0 ≤ n → n ≤ 23 →
        0 ≤ (saveAppSettings inp st).1.reminderHour ∧
        (saveAppSettings inp st).1.reminderHour ≤ 23 ∧
        0 ≤ (getAppSettings (saveAppSettings inp st).2).reminderHour ∧
        (getAppSettings (saveAppSettings inp st).2).reminderHour ≤ 23) ∧
    (∀ (i : Option Int) (cur : JsAppSettings) (st : WebState)
        (res : AppSettings × WebState),
        handleSaveReminder i cur st = some res →
        0 ≤ res.1.reminderHour ∧ res.1.reminderHour ≤ 23) := by
  constructor
  · intro inp st n hn h0 h23
    simp only [saveAppSettings, mergeSettings, settingsToPatch, settingsAsJs,
      getAppSettings, hn, Option.getD_some]
    exact ⟨h0, h23, h0, h23⟩
  · intro i cur st res hres
    cases i with
    | none => simp [handleSaveReminder] at hres
    | some hour =>
      simp only [handleSaveReminder] at hres
      by_cases hrange : hour < 0 ∨ 23 < hour
      · rw [if_pos hrange] at hres
        cases hres
      · rw [if_neg hrange] at hres
        push_neg at hrange
        have hres' := Option.some_inj.mp hres
        have hval : res.1.reminderHour = hour := by
          rw [← hres']
          rfl
        rw [hval]
        exact ⟨hrange.1, hrange.2⟩

/-- Witness for C9's amended theorem: the default settings (hour 7) stay in
range through `saveAppSettings`, and a `handleSaveReminder` call with hour
21 saves a record in range. -/
theorem saveAppSettings_range_witness :
    (0 ≤ (saveAppSettings (settingsAsJs DEFAULT_SETTINGS) sampleState).1.reminderHour ∧
      (saveAppSettings (settingsAsJs DEFAULT_SETTINGS) sampleState).1.reminderHour ≤ 23) := by
  have h := saveAppSettings_range_amended.1 (settingsAsJs DEFAULT_SETTINGS)
    sampleState 7 rfl (by decide) (by decide)
  exact ⟨h.1, h.2.1⟩

/-- The state component of one loop step equals `syncStepState`. -/
theorem syncStep_state_eq (server : SyncServer) (now sy : Nat)
    (er : List String) (s : WebState) (tr : List SyncMutation)
    (m : SyncMutation) :
    (syncStep server now (sy, er, s, tr) m).2.2.1 = syncStepState server now s m := by
  cases h : server m <;> simp [syncStep, syncStepState, h]

/-- The state threaded through the loop is the fold of `syncStepState`. -/
theorem syncStep_fold_state (server : SyncServer) (now : Nat) :
    ∀ (ms : List SyncMutation) (sy : Nat) (er : List String) (s : WebState)
      (tr : List SyncMutation),
      (ms.foldl (syncStep server now) (sy, er, s, tr)).2.2.1 =
        ms.foldl (syncStepState server now) s := by
  intro ms
  induction ms with
  | nil => intro sy er s tr; rfl
  | cons m rest ih =>
    intro sy er s tr
    rw [List.foldl_cons, List.foldl_cons]
    cases h : server m with
    | ok v =>
      simp only [syncStep, syncStepState, h]
      exact ih _ _ _ _
    | error msg =>
      simp only [syncStep, syncStepState, h]
      exact ih _ _ _ _

/-- The loop's ghost trace is the list of processed mutations, in order. -/
theorem syncStep_fold_trace (server : SyncServer) (now : Nat) :
    ∀ (ms : List SyncMutation) (sy : Nat) (er : List String) (s : WebState)
      (tr : List SyncMutation),
      (ms.foldl (syncStep server now) (sy, er, s, tr)).2.2.2 = tr ++ ms := by
  intro ms
  induction ms with
  | nil => intro sy er s tr; simp
  | cons m rest ih =>
    intro sy er s tr
    rw [List.foldl_cons]
    cases h : server m with
    | ok v =>
      simp only [syncStep, h]
      rw [ih]
      simp
    | error msg =>
      simp only [syncStep, h]
      rw [ih]
      simp

/-- Per-element accounting: the loop's success counter plus its error count
grows by exactly one per processed mutation. -/
theorem syncStep_fold_count (server : SyncServer) (now : Nat) :
    ∀ (ms : List SyncMutation) (sy : Nat) (er : List String) (s : WebState)
      (tr : List SyncMutation),
      (ms.foldl (syncStep server now) (sy, er, s, tr)).1 +
          (ms.foldl (syncStep server now) (sy, er, s, tr)).2.1.length =
        sy + er.length + ms.length := by
  intro ms
  induction ms with
  | nil => intro sy er s tr; simp
  | cons m rest ih =>
    intro sy er s tr
    rw [List.foldl_cons]
    cases h : server m with
    | ok v =>
      simp only [syncStep, h]
      rw [ih]
      simp only [List.length_cons]
      omega
    | error msg =>
      simp only [syncStep, h]
      rw [ih]
      simp only [List.length_append, List.length_cons, List.length_nil]
      omega

/-- The loop's error list collects, in order, exactly the messages of the
failing sends. -/
theorem syncStep_fold_errors (server : SyncServer) (now : Nat) :
    ∀ (ms : List SyncMutation) (sy : Nat) (er : List String) (s : WebState)
      (tr : List SyncMutation),
      (ms.foldl (syncStep server now) (sy, er, s, tr)).2.1 =
        er ++ ms.filterMap (serverErr server) := by
  intro ms
  induction ms with
  | nil => intro sy er s tr; simp
  | cons m rest ih =>
    intro sy er s tr
    rw [List.foldl_cons]
    cases h : server m with
    | ok v =>
      simp only [syncStep, h]
      rw [ih, List.filterMap_cons, serverErr, h]
    | error msg =>
      simp only [syncStep, h]
      rw [ih, List.filterMap_cons, serverErr, h]
      simp

/-- `syncRun` projections, specialized to the engine's initial
accumulator. -/
theorem syncRun_state (server : SyncServer) (now : Nat)
    (ms : List SyncMutation) (s : WebState) :
    (syncRun server now ms s).2.2.1 = ms.foldl (syncStepState server now) s :=
  syncStep_fold_state server now ms 0 [] s []

/-- The run's trace is exactly the loaded list of mutations. -/
theorem syncRun_trace (server : SyncServer) (now : Nat)
    (ms : List SyncMutation) (s : WebState) :
    (syncRun server now ms s).2.2.2 = ms := by
  have h := syncStep_fold_trace server now ms 0 [] s []
  simpa [syncRun] using h

/-- The run's totals: successes plus errors equal the number processed. -/
theorem syncRun_count (server : SyncServer) (now : Nat)
    (ms : List SyncMutation) (s : WebState) :
    (syncRun server now ms s).1 + (syncRun server now ms s).2.1.length =
      ms.length := by
  have h := syncStep_fold_count server now ms 0 [] s []
  simpa [syncRun] using h

/-- The run's error list is the in-order list of failing sends' messages. -/
theorem syncRun_errors (server : SyncServer) (now : Nat)
    (ms : List SyncMutation) (s : WebState) :
    (syncRun server now ms s).2.1 = ms.filterMap (serverErr server) := by
  have h := syncStep_fold_errors server now ms 0 [] s []
  simpa [syncRun] using h

/-- With a configured endpoint and a non-empty page, `syncPendingEntries`
reports the page length and the run's counters, and returns the run's final
state. -/
theorem syncPendingEntries_eq_of_ne_nil (ep : String) (server : SyncServer)
    (now : Nat) (s : WebState) (h : listPendingMutations s ≠ []) :
    syncPendingEntries (some ep) server now s =
      ({ attempted := (listPendingMutations s).length
         synced := (syncRun server now (listPendingMutations s) s).1
         skipped := false
         reason := none
         errors := (syncRun server now (listPendingMutations s) s).2.1 },
        (syncRun server now (listPendingMutations s) s).2.2.1) := by
  cases hq : listPendingMutations s with
  | nil => exact absurd hq h
  | cons a as => simp [syncPendingEntries, hq]

/-- A queue with no intent of a given id keeps that property across one
loop step. -/
theorem syncStepState_no_id (server : SyncServer) (now : Nat) (s : WebState)
    (m : SyncMutation) (i : String)
    (h : ∀ x ∈ s.syncQueue, x.id ≠ i) :
    ∀ x ∈ (syncStepState server now s m).syncQueue, x.id ≠ i := by
  intro x hx
  cases hsm : server m with
  | ok v =>
    simp only [syncStepState, hsm] at hx
    have hx' : x ∈ s.syncQueue.filter (fun y => y.id ≠ m.id) := hx
    exact h x (List.mem_filter.mp hx').1
  | error msg =>
    simp only [syncStepState, hsm] at hx
    have hx' : x ∈ s.syncQueue.map (fun y =>
        if y.id = m.id then
          { y with attempts := y.attempts + 1, lastError := some msg, updatedAt := now }
        else y) := hx
    rcases List.mem_map.mp hx' with ⟨y, hy, rfl⟩
    by_cases hy' : y.id = m.id
    · rw [if_pos hy']
      exact h y hy
    · rw [if_neg hy']
      exact h y hy

/-- A queue with no intent of a given id keeps that property across the
whole loop. -/
theorem syncFold_no_id (server : SyncServer) (now : Nat) (i : String) :
    ∀ (ms : List SyncMutation) (s : WebState),
      (∀ x ∈ s.syncQueue, x.id ≠ i) →
      ∀ x ∈ (ms.foldl (syncStepState server now) s).syncQueue, x.id ≠ i := by
  intro ms
  induction ms with
  | nil => intro s h; exact h
  | cons m rest ih =>
    intro s h
    rw [List.foldl_cons]
    exact ih _ (syncStepState_no_id server now s m i h)

/-- "Every stored entry with this id is `synced`" is preserved by one loop
step. -/
theorem syncStepState_entries_synced (server : SyncServer) (now : Nat)
    (s : WebState) (m : SyncMutation) (eid : String)
    (h : ∀ e ∈ s.massEntries, e.id = eid → e.status = SyncStatus.synced) :
    ∀ e ∈ (syncStepState server now s m).massEntries,
      e.id = eid → e.status = SyncStatus.synced := by
  intro e he hid
  cases hsm : server m with
  | ok v =>
    simp only [syncStepState, hsm] at he
    have he' : e ∈ s.massEntries.map (fun y =>
        if y.id = m.entityId then
          { y with status := SyncStatus.synced, updatedAt := now }
        else y) := he
    rcases List.mem_map.mp he' with ⟨y, hy, rfl⟩
    by_cases hy' : y.id = m.entityId
    · rw [if_pos hy']
    · rw [if_neg hy'] at hid ⊢
      exact h y hy hid
  | error msg =>
    simp only [syncStepState, hsm] at he
    exact h e he hid

/-- "Every stored entry with this id is `synced`" is preserved by the whole
loop. -/
theorem syncFold_entries_synced (server : SyncServer) (now : Nat) (eid : String) :
    ∀ (ms : List SyncMutation) (s : WebState),
      (∀ e ∈ s.massEntries, e.id = eid → e.status = SyncStatus.synced) →
      ∀ e ∈ (ms.foldl (syncStepState server now) s).massEntries,
        e.id = eid → e.status = SyncStatus.synced := by
  intro ms
  induction ms with
  | nil => intro s h; exact h
  | cons m rest ih =>
    intro s h
    rw [List.foldl_cons]
    exact ih _ (syncStepState_entries_synced server now s m eid h)

/-- A queued intent survives a loop step that processes a different id,
unchanged. -/
theorem syncStepState_keeps (server : SyncServer) (now : Nat) (s : WebState)
    (m r : SyncMutation) (hne : r.id ≠ m.id) (hr : r ∈ s.syncQueue) :
    r ∈ (syncStepState server now s m).syncQueue := by
  cases hsm : server m with
  | ok v =>
    simp only [syncStepState, hsm]
    show r ∈ s.syncQueue.filter (fun y => y.id ≠ m.id)
    exact List.mem_filter.mpr ⟨hr, decide_eq_true hne⟩
  | error msg =>
    simp only [syncStepState, hsm]
    show r ∈ s.syncQueue.map (fun y =>
      if y.id = m.id then
        { y with attempts := y.attempts + 1, lastError := some msg, updatedAt := now }
      else y)
    refine List.mem_map.mpr ⟨r, hr, ?_⟩
    rw [if_neg hne]

/-- A queued intent survives the rest of a loop that only processes other
ids, unchanged. -/
theorem syncFold_keeps (server : SyncServer) (now : Nat) :
    ∀ (ms : List SyncMutation) (s : WebState) (r : SyncMutation),
      r ∈ s.syncQueue → (∀ x ∈ ms, r.id ≠ x.id) →
      r ∈ (ms.foldl (syncStepState server now) s).syncQueue := by
  intro ms
  induction ms with
  | nil => intro s r hr _; exact hr
  | cons m rest ih =>
    intro s r hr hne
    rw [List.foldl_cons]
    exact ih _ r
      (syncStepState_keeps server now s m r (hne m (List.mem_cons_self m rest)) hr)
      (fun x hx => hne x (List.mem_cons_of_mem m hx))

/-- After a loop over a page containing a successfully-sent mutation, its
id is gone from the queue and every stored entry with its entity id is
`synced`. -/
theorem syncFold_success (server : SyncServer) (now : Nat) :
    ∀ (ms : List SyncMutation) (s : WebState) (m : SyncMutation),
      m ∈ ms → server m = .ok () →
      (∀ x ∈ (ms.foldl (syncStepState server now) s).syncQueue, x.id ≠ m.id) ∧
      (∀ e ∈ (ms.foldl (syncStepState server now) s).massEntries,
        e.id = m.entityId → e.status = SyncStatus.synced) := by
  intro ms
  induction ms with
  | nil => intro s m hm; exact absurd hm (List.not_mem_nil m)
  | cons x xs ih =>
    intro s m hm hok
    rw [List.foldl_cons]
    rcases List.mem_cons.mp hm with rfl | hm'
    · constructor
      · apply syncFold_no_id
        intro y hy
        simp only [syncStepState, hok] at hy
        have hy' : y ∈ s.syncQueue.filter (fun z => z.id ≠ m.id) := hy
        exact of_decide_eq_true (List.mem_filter.mp hy').2
      · apply syncFold_entries_synced
        intro e he hid
        simp only [syncStepState, hok] at he
        have he' : e ∈ s.massEntries.map (fun y =>
            if y.id = m.entityId then
              { y with status := SyncStatus.synced, updatedAt := now }
            else y) := he
        rcases List.mem_map.mp he' with ⟨y, hy, rfl⟩
        by_cases hy2 : y.id = m.entityId
        · rw [if_pos hy2]
        · rw [if_neg hy2] at hid
          exact absurd hid hy2
    · exact ih _ m hm' hok

/-- After a loop over a page with pairwise-distinct ids containing a
failing mutation, the queue holds that intent with `attempts` incremented
by exactly one, `lastError` set to the message, and `entityId`/`operation`
unchanged. -/
theorem syncFold_failed (server : SyncServer) (now : Nat) :
    ∀ (ms : List SyncMutation) (s : WebState) (m : SyncMutation) (msg : String),
      (ms.map (fun x => x.id)).Nodup → m ∈ ms → server m = .error msg →
      m ∈ s.syncQueue →
      { m with attempts := m.attempts + 1, lastError := some msg, updatedAt := now } ∈
        (ms.foldl (syncStepState server now) s).syncQueue := by
  intro ms
  induction ms with
  | nil => intro s m msg _ hm; exact absurd hm (List.not_mem_nil m)
  | cons x xs ih =>
    intro s m msg hnd hm hfail hq
    rw [List.map_cons, List.nodup_cons] at hnd
    obtain ⟨hxnot, hndxs⟩ := hnd
    rw [List.foldl_cons]
    rcases List.mem_cons.mp hm with rfl | hm'
    · apply syncFold_keeps
      · simp only [syncStepState, hfail]
        show _ ∈ s.syncQueue.map (fun y =>
          if y.id = m.id then
            { y with attempts := y.attempts + 1, lastError := some msg, updatedAt := now }
          else y)
        refine List.mem_map.mpr ⟨m, hq, ?_⟩
        rw [if_pos rfl]
      · intro y hy hcontra
        apply hxnot
        rw [show m.id = y.id from hcontra]
        exact List.mem_map_of_mem (fun z => z.id) hy
    · have hxm : m.id ≠ x.id := by
        intro hcontra
        apply hxnot
        rw [← hcontra]
        exact List.mem_map_of_mem (fun z => z.id) hm'
      exact ih _ m msg hndxs hm' hfail
        (syncStepState_keeps server now s x m hxm hq)

/-- `listPendingMutations` returns `min limit N` intents out of a queue of
`N`. -/
theorem listPendingMutations_length (s : WebState) (n : Nat) :
    (listPendingMutations s n).length = min n s.syncQueue.length := by
  simp [listPendingMutations, sortMutationsAsc]

/-- Every listed pending mutation is an actual record of the queue. -/
theorem mem_of_mem_listPendingMutations (s : WebState) (n : Nat)
    (x : SyncMutation) (h : x ∈ listPendingMutations s n) : x ∈ s.syncQueue := by
  have h' := List.take_subset n _ h
  simpa [sortMutationsAsc] using h'

/-- With the limit set to the queue length, every queue record is listed. -/
theorem mem_listPendingMutations_of_mem (s : WebState) (x : SyncMutation)
    (h : x ∈ s.syncQueue) : x ∈ listPendingMutations s s.syncQueue.length := by
  unfold listPendingMutations
  rw [show s.syncQueue.length = (sortMutationsAsc s.syncQueue).length by
        simp [sortMutationsAsc],
      List.take_length]
  simpa [sortMutationsAsc] using h

/-- Pairwise-distinct queue ids stay pairwise distinct in the listed
page. -/
theorem nodup_ids_listPendingMutations (s : WebState) (n : Nat)
    (h : (s.syncQueue.map (fun x => x.id)).Nodup) :
    ((listPendingMutations s n).map (fun x => x.id)).Nodup := by
  have hperm : ((sortMutationsAsc s.syncQueue).map (fun x => x.id)).Perm
      (s.syncQueue.map (fun x => x.id)) :=
    (List.perm_insertionSort _ _).map _
  have hsorted : ((sortMutationsAsc s.syncQueue).map (fun x => x.id)).Nodup :=
    hperm.nodup_iff.mpr h
  have hrw : (listPendingMutations s n).map (fun x => x.id) =
      ((sortMutationsAsc s.syncQueue).map (fun x => x.id)).take n := by
    simp [listPendingMutations, List.map_take]
  rw [hrw]
  exact List.Nodup.sublist (List.take_sublist _ _) hsorted

/-- `entryRel` composes: two in-run rewrites amount to one. -/
theorem entryRel_trans (now : Nat) {a b c : MassEntry}
    (hab : entryRel now a b) (hbc : entryRel now b c) : entryRel now a c := by
  rcases hab with rfl | rfl
  · exact hbc
  · rcases hbc with rfl | rfl
    · exact Or.inr rfl
    · exact Or.inr rfl

/-- `entryRel` is reflexive, entrywise over a list. -/
theorem forall₂_entryRel_refl (now : Nat) (l : List MassEntry) :
    List.Forall₂ (entryRel now) l l :=
  List.forall₂_same.mpr fun _ _ => Or.inl rfl

/-- `entryRel` composes entrywise over lists. -/
theorem forall₂_entryRel_trans (now : Nat) :
    ∀ {l₁ l₂ l₃ : List MassEntry},
      List.Forall₂ (entryRel now) l₁ l₂ → List.Forall₂ (entryRel now) l₂ l₃ →
      List.Forall₂ (entryRel now) l₁ l₃ := by
  intro l₁ l₂ l₃ h12
  induction h12 generalizing l₃ with
  | nil => intro h; exact h
  | cons hab h ih =>
    intro h23
    cases h23 with
    | cons hbc h' => exact List.Forall₂.cons (entryRel_trans now hab hbc) (ih h')

/-- Marking matching entries `synced` relates a list to its image,
entrywise. -/
theorem forall₂_map_update (now : Nat) (eid : String) :
    ∀ l : List MassEntry,
      List.Forall₂ (entryRel now) l
        (l.map fun e =>
          if e.id = eid then { e with status := SyncStatus.synced, updatedAt := now }
          else e) := by
  intro l
  induction l with
  | nil => exact List.Forall₂.nil
  | cons e l ih =>
    rw [List.map_cons]
    refine List.Forall₂.cons ?_ ih
    by_cases he : e.id = eid
    · rw [if_pos he]
      exact Or.inr rfl
    · rw [if_neg he]
      exact Or.inl rfl

/-- One loop step only rewrites entries along `entryRel`. -/
theorem syncStepState_entries_rel (server : SyncServer) (now : Nat)
    (s : WebState) (m : SyncMutation) :
    List.Forall₂ (entryRel now) s.massEntries
      (syncStepState server now s m).massEntries := by
  cases hsm : server m with
  | ok v =>
    simp only [syncStepState, hsm]
    exact forall₂_map_update now m.entityId s.massEntries
  | error msg =>
    simp only [syncStepState, hsm]
    exact forall₂_entryRel_refl now s.massEntries

/-- The whole loop only rewrites entries along `entryRel`. -/
theorem syncFold_entries_rel (server : SyncServer) (now : Nat) :
    ∀ (ms : List SyncMutation) (s : WebState),
      List.Forall₂ (entryRel now) s.massEntries
        ((ms.foldl (syncStepState server now) s)).massEntries := by
  intro ms
  induction ms with
  | nil => intro s; exact forall₂_entryRel_refl now s.massEntries
  | cons m rest ih =>
    intro s
    rw [List.foldl_cons]
    exact forall₂_entryRel_trans now
      (syncStepState_entries_rel server now s m) (ih _)

/-- C1 (amended): with an endpoint configured, every run over a queue of
`N` pending intents loads one page of `min 25 N` intents (25 is the page
limit of `listPendingMutations`) and returns stats satisfying
`synced + length errors = attempted = min 25 N` — unconditionally, so in
particular for the empty-queue run and for runs in which every send
fails; and every successfully-sent intent of the page is absent from the
queue after the run, while every stored `MassEntry` whose id equals that
intent's `entityId` has status `synced` after the run. -/
theorem syncPendingEntries_totals_and_success (ep : String)
    (server : SyncServer) (now : Nat) (s : WebState) :
    (syncPendingEntries (some ep) server now s).1.attempted =
      min 25 s.syncQueue.length ∧
    (syncPendingEntries (some ep) server now s).1.synced +
        (syncPendingEntries (some ep) server now s).1.errors.length =
      (syncPendingEntries (some ep) server now s).1.attempted ∧
    ∀ m ∈ listPendingMutations s, server m = .ok () →
      (∀ x ∈ (syncPendingEntries (some ep) server now s).2.syncQueue,
        x.id ≠ m.id) ∧
      (∀ e ∈ (syncPendingEntries (some ep) server now s).2.massEntries,
        e.id = m.entityId → e.status = SyncStatus.synced) := by
  cases hq : listPendingMutations s with
  | nil =>
    have h0 : min 25 s.syncQueue.length = 0 := by
      have hl := listPendingMutations_length s 25
      rw [hq] at hl
      exact hl.symm
    have hstate : syncPendingEntries (some ep) server now s =
        ({ attempted := 0, synced := 0, skipped := false
           reason := none, errors := [] }, s) := by
      simp [syncPendingEntries, hq]
    refine ⟨?_, ?_, ?_⟩
    · rw [hstate]
      exact h0.symm
    · rw [hstate]
      rfl
    · intro m hm
      exact absurd hm (List.not_mem_nil m)
  | cons a as =>
    have hne : listPendingMutations s ≠ [] := by
      rw [hq]
      exact List.cons_ne_nil a as
    have heq := syncPendingEntries_eq_of_ne_nil ep server now s hne
    have hs2 : (syncPendingEntries (some ep) server now s).2 =
        (listPendingMutations s).foldl (syncStepState server now) s := by
      rw [heq]
      exact syncRun_state server now (listPendingMutations s) s
    refine ⟨?_, ?_, ?_⟩
    · rw [heq]
      exact listPendingMutations_length s 25
    · rw [heq]
      exact syncRun_count server now (listPendingMutations s) s
    · intro m hm hok
      rw [← hq] at hm
      constructor
      · rw [hs2]
        exact (syncFold_success server now (listPendingMutations s) s m hm hok).1
      · rw [hs2]
        exact (syncFold_success server now (listPendingMutations s) s m hm hok).2

/-- Witness for C1 at a concrete input: one pending intent, a server that
accepts everything — the stats add up and the intent's id is gone. -/
theorem syncPendingEntries_totals_and_success_witness :
    (syncPendingEntries (some "api") okServer 0 sampleState).1.attempted = 1 ∧
    (syncPendingEntries (some "api") okServer 0 sampleState).1.synced +
        (syncPendingEntries (some "api") okServer 0 sampleState).1.errors.length =
      (syncPendingEntries (some "api") okServer 0 sampleState).1.attempted ∧
    (∀ x ∈ (syncPendingEntries (some "api") okServer 0 sampleState).2.syncQueue,
      x.id ≠ sampleMutation.id) := by
  have h := syncPendingEntries_totals_and_success "api" okServer 0 sampleState
  exact ⟨h.1, h.2.1, (h.2.2 sampleMutation (by decide) rfl).1⟩

/-- C1 counterexample: over a queue of 26 pending intents the run attempts
only the 25-intent page, so `attempted` is 25, not the queue size `N`. -/
theorem syncPendingEntries_attempted_counterexample :
    bigQueueState.syncQueue.length = 26 ∧
    (syncPendingEntries (some "api") okServer 0 bigQueueState).1.attempted = 25 ∧
    (syncPendingEntries (some "api") okServer 0 bigQueueState).1.attempted ≠
      bigQueueState.syncQueue.length := by
  refine ⟨by decide, by decide, by decide⟩

/-- C2: a run appends one error message per failing intent (its error list
is exactly the in-order list of failing sends' messages, so later intents
are still attempted after a failure), and each failing intent stays queued
with `attempts` incremented by exactly one, `lastError` set, and
`entityId`/`operation` unchanged — still retrievable through
`listPendingMutations`. -/
theorem syncPendingEntries_failure_bookkeeping (ep msg : String)
    (server : SyncServer) (now : Nat) (s : WebState) (m : SyncMutation)
    (hnd : (s.syncQueue.map (fun x => x.id)).Nodup)
    (hm : m ∈ listPendingMutations s)
    (hfail : server m = .error msg) :
    (syncPendingEntries (some ep) server now s).1.errors =
      (listPendingMutations s).filterMap (serverErr server) ∧
    ∃ x ∈ (syncPendingEntries (some ep) server now s).2.syncQueue,
      x.id = m.id ∧ x.entityId = m.entityId ∧ x.operation = m.operation ∧
      x.attempts = m.attempts + 1 ∧ x.lastError = some msg ∧
      x ∈ listPendingMutations (syncPendingEntries (some ep) server now s).2
            (syncPendingEntries (some ep) server now s).2.syncQueue.length := by
  have hne : listPendingMutations s ≠ [] := by
    intro h
    rw [h] at hm
    exact List.not_mem_nil m hm
  have heq := syncPendingEntries_eq_of_ne_nil ep server now s hne
  have hs2 : (syncPendingEntries (some ep) server now s).2 =
      (listPendingMutations s).foldl (syncStepState server now) s := by
    rw [heq]
    exact syncRun_state server now (listPendingMutations s) s
  have hkept : { m with attempts := m.attempts + 1, lastError := some msg, updatedAt := now } ∈
      (syncPendingEntries (some ep) server now s).2.syncQueue := by
    rw [hs2]
    exact syncFold_failed server now (listPendingMutations s) s m msg
      (nodup_ids_listPendingMutations s 25 hnd) hm hfail
      (mem_of_mem_listPendingMutations s 25 m hm)
  refine ⟨?_, ?_⟩
  · rw [heq]
    exact syncRun_errors server now (listPendingMutations s) s
  · exact ⟨_, hkept, rfl, rfl, rfl, rfl, rfl,
      mem_listPendingMutations_of_mem _ _ hkept⟩

/-- Witness for C2 at a concrete input: one pending intent, a server that
rejects everything — the run reports one error and the intent survives
with `attempts = 1` and its `lastError` set. -/
theorem syncPendingEntries_failure_bookkeeping_witness :
    (syncPendingEntries (some "api") failServer 0 sampleState).1.errors =
      (listPendingMutations sampleState).filterMap (serverErr failServer) ∧
    ∃ x ∈ (syncPendingEntries (some "api") failServer 0 sampleState).2.syncQueue,
      x.id = sampleMutation.id ∧ x.entityId = sampleMutation.entityId ∧
      x.operation = sampleMutation.operation ∧
      x.attempts = sampleMutation.attempts + 1 ∧ x.lastError = some "boom" ∧
      x ∈ listPendingMutations
            (syncPendingEntries (some "api") failServer 0 sampleState).2
            (syncPendingEntries (some "api") failServer 0 sampleState).2.syncQueue.length := by
  have h := syncPendingEntries_failure_bookkeeping "api" "boom" failServer 0
    sampleState sampleMutation (by decide) (by decide) rfl
  exact h

/-- C3: within one run the pending intents are attempted strictly in
ascending `createdAt` order — `listPendingMutations` is the `createdAt`-
ascending sort of the queue truncated to the limit, the engine's send
order is exactly that returned list, and any two attempted intents with
strictly increasing `createdAt` occupy strictly increasing positions. -/
theorem syncPendingEntries_attempt_order (ep : String) (server : SyncServer)
    (now : Nat) (s : WebState) (limit : Nat) :
    listPendingMutations s limit = (sortMutationsAsc s.syncQueue).take limit ∧
    (sortMutationsAsc s.syncQueue).Perm s.syncQueue ∧
    List.Pairwise (fun a b => a.createdAt ≤ b.createdAt)
      (listPendingMutations s limit) ∧
    syncAttemptTrace (some ep) server now s = listPendingMutations s ∧
    ∀ (i j : Fin (listPendingMutations s limit).length),
      ((listPendingMutations s limit).get i).createdAt <
          ((listPendingMutations s limit).get j).createdAt →
        (i : Nat) < (j : Nat) := by
  have hsorted : List.Pairwise (fun a b : SyncMutation => a.createdAt ≤ b.createdAt)
      (sortMutationsAsc s.syncQueue) :=
    List.sorted_insertionSort
      (fun a b : SyncMutation => a.createdAt ≤ b.createdAt) s.syncQueue
  have hpair : List.Pairwise (fun a b : SyncMutation => a.createdAt ≤ b.createdAt)
      (listPendingMutations s limit) :=
    List.Pairwise.sublist (List.take_sublist limit _) hsorted
  refine ⟨rfl, List.perm_insertionSort _ _, hpair, ?_, ?_⟩
  · simp only [syncAttemptTrace]
    exact syncRun_trace server now (listPendingMutations s) s
  · intro i j hlt
    have hp := List.pairwise_iff_get.mp hpair
    rcases lt_trichotomy (i : Nat) (j : Nat) with h | h | h
    · exact h
    · exfalso
      have : i = j := Fin.ext h
      subst this
      exact Nat.lt_irrefl _ hlt
    · exfalso
      have hle := hp j i (Fin.lt_def.mpr h)
      exact Nat.lt_irrefl _ (Nat.lt_of_lt_of_le hlt hle)

/-- Witness for C3 at a concrete input: two intents enqueued in reverse
time order are attempted oldest-first, and the strict-time hypothesis at
positions 0 and 1 is discharged by evaluation. -/
theorem syncPendingEntries_attempt_order_witness :
    syncAttemptTrace (some "api") okServer 0 twoMutState =
      listPendingMutations twoMutState ∧
    (0 : Nat) < 1 := by
  have h := syncPendingEntries_attempt_order "api" okServer 0 twoMutState 25
  exact ⟨h.2.2.2.1, h.2.2.2.2 ⟨0, by decide⟩ ⟨1, by decide⟩ (by decide)⟩

/-- C10: a run only rewrites each stored entry along `entryRel` — it is
left unchanged or stamped `synced`; the engine never writes the status
`failed`, so after a failed send the entry's record is exactly what it was
before the run. -/
theorem syncPendingEntries_never_marks_failed (endpoint : Option String)
    (server : SyncServer) (now : Nat) (s : WebState) :
    List.Forall₂ (entryRel now) s.massEntries
      (syncPendingEntries endpoint server now s).2.massEntries := by
  cases endpoint with
  | none => exact forall₂_entryRel_refl now s.massEntries
  | some ep =>
    cases hq : listPendingMutations s with
    | nil =>
      have hstate : (syncPendingEntries (some ep) server now s).2 = s := by
        simp [syncPendingEntries, hq]
      rw [hstate]
      exact forall₂_entryRel_refl now s.massEntries
    | cons a as =>
      have hne : listPendingMutations s ≠ [] := by
        rw [hq]
        exact List.cons_ne_nil a as
      have hs2 : (syncPendingEntries (some ep) server now s).2 =
          (listPendingMutations s).foldl (syncStepState server now) s := by
        rw [syncPendingEntries_eq_of_ne_nil ep server now s hne]
        exact syncRun_state server now (listPendingMutations s) s
      rw [hs2]
      exact syncFold_entries_rel server now (listPendingMutations s) s

/-- Encoding then decoding one hex digit is the identity below 16. -/
theorem hexDigitVal_hexDigit : ∀ n : Nat, n < 16 → hexDigitVal (hexDigit n) = some n := by
  decide

/-- Decoding the `00XY` hex quadruple the stringifier emits recovers the
code point. -/
theorem decodeHex4_zeros (n : Nat) (h : n < 256) :
    decodeHex4 '0' '0' (hexDigit (n / 16)) (hexDigit (n % 16)) = some n := by
  have hhi := hexDigitVal_hexDigit (n / 16) (by omega)
  have hlo := hexDigitVal_hexDigit (n % 16) (by omega)
  simp only [decodeHex4, hhi, hlo, show hexDigitVal '0' = some 0 from rfl]
  congr 1
  omega

/-- Parsing the `\u00XY` escape of a control character decodes it back. -/
theorem parseUEscape_encode (c : Char) (h : c.toNat < 32)
    (k : Option (List Char × List Char)) :
    parseUEscape '0' '0' (hexDigit (c.toNat / 16)) (hexDigit (c.toNat % 16)) k =
      consChar c k := by
  have hd := decodeHex4_zeros c.toNat (by omega)
  simp only [parseUEscape, hd]
  rw [if_pos (by omega : c.toNat < 55296), Char.ofNat_toNat]

set_option maxHeartbeats 1600000 in
/-- Parsing the escape of one character decodes that character back. -/
theorem parseStringBody_escapeChar (c : Char) (tail : List Char) :
    parseStringBody (escapeChar c ++ tail) = consChar c (parseStringBody tail) := by
  by_cases h1 : c = '"'
  · subst h1
    show parseStringBody ('\\' :: '"' :: tail) = consChar '"' (parseStringBody tail)
    simp only [parseStringBody]
    rfl
  by_cases h2 : c = '\\'
  · subst h2
    show parseStringBody ('\\' :: '\\' :: tail) = consChar '\\' (parseStringBody tail)
    simp only [parseStringBody]
    rfl
  by_cases h3 : c = '\x08'
  · subst h3
    show parseStringBody ('\\' :: 'b' :: tail) = consChar '\x08' (parseStringBody tail)
    simp only [parseStringBody]
    rfl
  by_cases h4 : c = '\x0C'
  · subst h4
    show parseStringBody ('\\' :: 'f' :: tail) = consChar '\x0C' (parseStringBody tail)
    simp only [parseStringBody]
    rfl
  by_cases h5 : c = '\n'
  · subst h5
    show parseStringBody ('\\' :: 'n' :: tail) = consChar '\n' (parseStringBody tail)
    simp only [parseStringBody]
    rfl
  by_cases h6 : c = '\r'
  · subst h6
    show parseStringBody ('\\' :: 'r' :: tail) = consChar '\r' (parseStringBody tail)
    simp only [parseStringBody]
    rfl
  by_cases h7 : c = '\t'
  · subst h7
    show parseStringBody ('\\' :: 't' :: tail) = consChar '\t' (parseStringBody tail)
    simp only [parseStringBody]
    rfl
  by_cases h8 : c.toNat < 32
  · have hesc : escapeChar c =
        ['\\', 'u', '0', '0', hexDigit (c.toNat / 16), hexDigit (c.toNat % 16)] := by
      simp only [escapeChar, if_neg h1, if_neg h2, if_neg h3, if_neg h4,
        if_neg h5, if_neg h6, if_neg h7, if_pos h8]
    rw [hesc]
    show parseStringBody
        ('\\' :: 'u' :: '0' :: '0' :: hexDigit (c.toNat / 16) ::
          hexDigit (c.toNat % 16) :: tail) = consChar c (parseStringBody tail)
    simp only [parseStringBody]
    show parseUEscape '0' '0' (hexDigit (c.toNat / 16)) (hexDigit (c.toNat % 16))
        (parseStringBody tail) = consChar c (parseStringBody tail)
    exact parseUEscape_encode c h8 (parseStringBody tail)
  · have hesc : escapeChar c = [c] := by
      simp only [escapeChar, if_neg h1, if_neg h2, if_neg h3, if_neg h4,
        if_neg h5, if_neg h6, if_neg h7, if_neg h8]
    rw [hesc]
    show parseStringBody (c :: tail) = consChar c (parseStringBody tail)
    rw [parseStringBody.eq_def]
    simp only [if_neg h1, if_neg h2, if_neg h8]

set_option maxHeartbeats 1600000 in
/-- Parsing an escaped string body followed by a closing quote recovers the
string. -/
theorem parseStringBody_append (s : List Char) :
    ∀ tail : List Char,
      parseStringBody (escapeList s ++ '"' :: tail) = some (s, tail) := by
  induction s with
  | nil =>
    intro tail
    simp only [escapeList, List.nil_append]
    rw [parseStringBody.eq_def]
    rfl
  | cons c cs ih =>
    intro tail
    simp only [escapeList]
    rw [List.append_assoc, parseStringBody_escapeChar, ih]
    rfl

/-- A quoted string followed by anything, with the appends normalized. -/
theorem quoteStr_append (s z : List Char) :
    quoteStr s ++ z = '"' :: escapeList s ++ '"' :: z := by
  simp [quoteStr, List.append_assoc]

set_option maxHeartbeats 1600000 in
/-- The value parser on a quoted string literal. -/
theorem parseCore_value_string (fuel : Nat) (s tail : List Char) :
    parseCore (fuel + 1) (.value ('"' :: escapeList s ++ '"' :: tail)) =
      some (.str s, tail) := by
  show strResult (parseStringBody (escapeList s ++ '"' :: tail)) = some (.str s, tail)
  rw [parseStringBody_append]
  rfl

set_option maxHeartbeats 1600000 in
/-- One step of the array-element loop, given the next value's parse. -/
theorem parseCore_elements_step (fuel : Nat) (cs rest : List Char)
    (acc : List Json) (j : Json)
    (h : parseCore fuel (.value cs) = some (j, rest)) :
    parseCore (fuel + 1) (.elements cs acc) =
      (match skipWs rest with
       | ',' :: r => parseCore fuel (.elements r (acc ++ [j]))
       | ']' :: r => some (.arr (acc ++ [j]), r)
       | _ => none) := by
  simp only [parseCore, h]

set_option maxHeartbeats 1600000 in
/-- The element loop over the rendered, comma-joined tags recovers the
tags (given fuel at least the element count plus one). -/
theorem parseCore_elements_tags :
    ∀ (ss : List (List Char)) (k : Nat) (acc : List Json) (tail : List Char),
      ss ≠ [] → ss.length + 1 ≤ k →
      parseCore k (.elements (joinComma (ss.map quoteStr) ++ ']' :: tail) acc) =
        some (.arr (acc ++ ss.map .str), tail) := by
  intro ss
  induction ss with
  | nil => intro k acc tail hne; exact absurd rfl hne
  | cons t ts ih =>
    intro k acc tail _ hk
    simp only [List.length_cons] at hk
    obtain ⟨k'', rfl⟩ : ∃ k'', k = k'' + 1 + 1 := ⟨k - 2, by omega⟩
    cases ts with
    | nil =>
      show parseCore (k'' + 1 + 1)
          (.elements (quoteStr t ++ ']' :: tail) acc) = _
      rw [quoteStr_append]
      rw [parseCore_elements_step (k'' + 1) _ (']' :: tail) acc (.str t)
        (parseCore_value_string k'' t (']' :: tail))]
      rfl
    | cons t2 ts2 =>
      show parseCore (k'' + 1 + 1)
          (.elements ((quoteStr t ++ ',' :: joinComma ((t2 :: ts2).map quoteStr)) ++
            ']' :: tail) acc) = _
      rw [List.append_assoc, List.cons_append, quoteStr_append]
      rw [parseCore_elements_step (k'' + 1) _
        (',' :: (joinComma ((t2 :: ts2).map quoteStr) ++ ']' :: tail)) acc (.str t)
        (parseCore_value_string k'' t _)]
      show parseCore (k'' + 1)
          (.elements (joinComma ((t2 :: ts2).map quoteStr) ++ ']' :: tail)
            (acc ++ [Json.str t])) =
        some (.arr (acc ++ (t :: t2 :: ts2).map Json.str), tail)
      rw [ih (k'' + 1) (acc ++ [Json.str t]) tail (List.cons_ne_nil t2 ts2)
        (by simp only [List.length_cons] at hk ⊢; omega)]
      simp

/-- Each rendered tag list is at least as long as its tag count. -/
theorem joinComma_quote_length :
    ∀ ts : List (List Char), ts ≠ [] →
      ts.length ≤ (joinComma (ts.map quoteStr)).length := by
  intro ts
  induction ts with
  | nil => intro h; exact absurd rfl h
  | cons t ts' ih =>
    intro _
    cases ts' with
    | nil =>
      show (t :: []).length ≤ (quoteStr t).length
      simp only [quoteStr, List.length_cons, List.length_append, List.length_nil]
      omega
    | cons t2 ts2 =>
      have h2 := ih (List.cons_ne_nil t2 ts2)
      show _ ≤ (quoteStr t ++ ',' :: joinComma ((t2 :: ts2).map quoteStr)).length
      simp only [quoteStr, List.length_append, List.length_cons,
        List.length_nil] at h2 ⊢
      omega

/-- The rendered text is long enough to fuel the parse. -/
theorem stringifyTags_length (ts : List (List Char)) (h : ts ≠ []) :
    ts.length + 1 ≤ (stringifyTags ts).length := by
  have hj := joinComma_quote_length ts h
  simp only [stringifyTags, List.length_cons, List.length_append]
  omega

set_option maxHeartbeats 1600000 in
/-- The value parser hands a rendered tag array over to the element
loop. -/
theorem parseCore_value_tagsArray (fuel : Nat) (t : List Char)
    (ts' : List (List Char)) (tail : List Char) :
    parseCore (fuel + 1)
        (.value ('[' :: joinComma ((t :: ts').map quoteStr) ++ ']' :: tail)) =
      parseCore fuel
        (.elements (joinComma ((t :: ts').map quoteStr) ++ ']' :: tail) []) := by
  cases ts' with
  | nil =>
    simp only [parseCore]
    rfl
  | cons t2 ts2 =>
    simp only [parseCore]
    rfl

/-- `parseJson` succeeds on a fully-consumed value parse. -/
theorem parseJson_step (cs : List Char) (j : Json)
    (h : parseCore (cs.length + 1) (.value cs) = some (j, [])) :
    parseJson cs = some j := by
  show (match parseCore (cs.length + 1) (.value cs) with
        | some (j, rest) => if skipWs rest = [] then some j else none
        | none => none) = some j
  rw [h]
  rfl

set_option maxHeartbeats 1600000 in
/-- `JSON.parse` inverts `JSON.stringify` on a non-empty tag list. -/
theorem parseJson_stringifyTags (t : List Char) (ts' : List (List Char)) :
    parseJson (stringifyTags (t :: ts')) = some (.arr ((t :: ts').map .str)) := by
  apply parseJson_step
  have hlen := stringifyTags_length (t :: ts') (List.cons_ne_nil t ts')
  calc parseCore ((stringifyTags (t :: ts')).length + 1)
          (.value (stringifyTags (t :: ts')))
      = parseCore (stringifyTags (t :: ts')).length
          (.elements (joinComma ((t :: ts').map quoteStr) ++ ']' :: []) []) :=
        parseCore_value_tagsArray _ t ts' []
    _ = some (.arr ([] ++ (t :: ts').map .str), []) :=
        parseCore_elements_tags (t :: ts') _ [] [] (List.cons_ne_nil t ts') hlen
    _ = some (.arr ((t :: ts').map .str), []) := by simp

/-- C6: tag-list serialization round-trips — deserializing the serialized
form of any tag list yields the same tags back verbatim (as JSON string
values, matching the unchecked cast in the source); and any input on which
`JSON.parse` throws, or which parses to a non-array, deserializes to the
empty list instead of raising. -/
theorem deserializeTags_spec :
    (∀ ts : List (List Char),
        deserializeTags (serializeTags (some ts)) = ts.map Json.str) ∧
    (∀ cs : List Char,
        (parseJson cs = none ∨ ∀ es, parseJson cs ≠ some (Json.arr es)) →
        deserializeTags (some cs) = []) := by
  constructor
  · intro ts
    cases ts with
    | nil => rfl
    | cons t ts' =>
      have hjson := parseJson_stringifyTags t ts'
      have hser : serializeTags (some (t :: ts')) = some (stringifyTags (t :: ts')) := by
        simp [serializeTags]
      rw [hser]
      simp only [deserializeTags]
      rw [if_neg (by simp [stringifyTags] : ¬stringifyTags (t :: ts') = []), hjson]
  · intro cs h
    by_cases hnil : cs = []
    · simp [deserializeTags, hnil]
    · simp only [deserializeTags, if_neg hnil]
      cases hp : parseJson cs with
      | none => rfl
      | some j =>
        cases j with
        | null => rfl
        | bool b => rfl
        | num raw => rfl
        | str s => rfl
        | obj mem => rfl
        | arr es =>
          rcases h with h | h
          · rw [h] at hp; cases hp
          · exact absurd hp (h es)

/-- Witness for C6: a concrete round trip (`["hi","x"]`) and a concrete
malformed input (`not`, which `JSON.parse` rejects) decoding to `[]`. -/
theorem deserializeTags_spec_witness :
    deserializeTags (serializeTags (some [['h', 'i'], ['x']])) =
      [Json.str ['h', 'i'], Json.str ['x']] ∧
    deserializeTags (some ['n', 'o', 't']) = [] :=
  ⟨deserializeTags_spec.1 [['h', 'i'], ['x']],
    deserializeTags_spec.2 ['n', 'o', 't'] (Or.inl rfl)⟩

end Trakmass
